import Mathlib

/-!
# cve_scanner.go: a shallow embedding

The program reads a `package.json`, probes the local `node` binary, and for
every dependency name asks the npm registry for the package's versions and the
NVD API for CVEs.  Everything the program obtains from outside (command line,
files, the `node` process, HTTP, the JSON library, map iteration order) is a
field of `World`; the functions of `cve_scanner.go` are pure functions of a
`World` that return the list of observable events they produce.

Go strings and byte slices are sequences of bytes, here `List Nat`.
-/

namespace CveScanner

/-- A Go `string` or `[]byte`: its bytes, in order. -/
abbrev GoString := List Nat

/-- UTF-8 encoding of one code point (Go source literals are UTF-8). -/
def utf8Bytes (c : Nat) : List Nat :=
  if c < 0x80 then [c]
  else if c < 0x800 then [0xC0 + c / 64, 0x80 + c % 64]
  else if c < 0x10000 then [0xE0 + c / 4096, 0x80 + c / 64 % 64, 0x80 + c % 64]
  else [0xF0 + c / 262144, 0x80 + c / 4096 % 64, 0x80 + c / 64 % 64, 0x80 + c % 64]

/-- The bytes of a string literal of the source. -/
def lit (s : String) : GoString :=
  s.data.flatMap (fun c => utf8Bytes c.toNat)

/-- Go's built-in `<` on strings: byte-wise lexicographic order, a proper
prefix being smaller. -/
def strLt : GoString → GoString → Bool
  | [], [] => false
  | [], _ :: _ => true
  | _ :: _, [] => false
  | a :: as, b :: bs => decide (a < b) || (a == b && strLt as bs)

/-- Source `compareVersions` (cve_scanner.go:169-178). -/
def compareVersions (v1 v2 : GoString) : Int :=
  if strLt v2 v1 then 1
  else if strLt v1 v2 then -1
  else 0

/-- One iteration of the loop body at cve_scanner.go:147-149. -/
def selectStep (latestVersion v : GoString) : GoString :=
  if latestVersion = [] ∨ compareVersions v latestVersion > 0 then v else latestVersion

/-- The selection loop of `checkNpmPackage` (cve_scanner.go:145-150) run over
the keys of `versionsMap` in the order the `range` visits them. -/
def selectLatest (keys : List GoString) : GoString :=
  keys.foldl selectStep []

/-- What `encoding/json` stores in an `interface{}`: nil, bool, float64 (kept
as its literal text, no arithmetic is done on it), string, `[]interface{}`,
`map[string]interface{}` (its entries in the order a `range` visits them). -/
inductive JVal where
  | null
  | bool (b : Bool)
  | num (text : GoString)
  | str (s : GoString)
  | arr (items : List JVal)
  | obj (fields : List (GoString × JVal))

/-- An HTTP response body as the program consumes it: `bytes` is what
`io.ReadAll` returns for it, `json` what `json.NewDecoder(body).Decode` into a
`map[string]interface{}` returns for it (the entries in `range` order; a nil
map has no entries). -/
structure Body where
  bytes : Except GoString GoString
  json : Except GoString (List (GoString × JVal))

/-- The fields of `http.Response` the program reads. -/
structure Response where
  statusCode : Int
  status : GoString
  body : Body

/-- Everything outside the program.  Errors carry their `Error()` text. -/
structure World where
  /-- The value of `os.Args`. -/
  args : List GoString
  /-- The result of `os.ReadFile`. -/
  readFile : GoString → Except GoString GoString
  /-- The result of `exec.Command("node", "-v").Output()`. -/
  nodeOutput : Except GoString GoString
  /-- The library function `strings.TrimSpace`. -/
  trimSpace : GoString → GoString
  /-- The result of `json.Unmarshal(data, &dependencies)`: an error, or the value
  left in `dependencies.Dependencies`, `none` being the nil map (the key
  `dependencies` is absent or null) and `some m` a map with the entries `m`. -/
  unmarshal : GoString → Except GoString (Option (List (GoString × GoString)))
  /-- The result of `os.OpenFile("cve_scan_results.json", ...)`. -/
  openFile : Except GoString Unit
  /-- The order in which `range` visits the keys of the dependency map. -/
  rangeOrder : List GoString → List GoString
  /-- The result of `http.Get`. -/
  httpGet : GoString → Except GoString Response
  /-- The result of `json.MarshalIndent(npmData, "", "  ")`. -/
  marshalIndent : List (GoString × JVal) → Except GoString GoString

/-- What the program does that can be observed.  `log` holds the message
without the time stamp the `log` package puts in front; `checkCVEsCall` marks a
call of `checkCVEs` and prints nothing. -/
inductive Event where
  | stdout (s : GoString)
  | log (s : GoString)
  | httpGet (url : GoString)
  | checkCVEsCall (packageName : GoString)
  deriving DecidableEq, Repr

/-- How `main` ends: it returns, `log.Fatalf` exits with status 1, or the
runtime panics. -/
inductive Outcome where
  | returned
  | fatal
  | panicked
  deriving DecidableEq, Repr

/-- Decimal text of an integer, as `%d` prints it. -/
def fmtInt (n : Int) : GoString := lit (toString n)

/-- The registry URL built at cve_scanner.go:111. -/
def npmURL (packageName : GoString) : GoString :=
  lit "https://registry.npmjs.org/" ++ packageName

/-- The NVD URL built at cve_scanner.go:76. -/
def nvdURL (packageName version : GoString) : GoString :=
  lit "https://services.nvd.nist.gov/rest/json/cves/2.0?keywordSearch="
    ++ packageName ++ lit "+" ++ version

/-- Source `checkNpmPackage` (cve_scanner.go:109-166).  The second argument
is the value of `*version` on entry, the second component of the result its
value on return. -/
def checkNpmPackage (w : World) (packageName : GoString) (version : GoString) :
    List Event × GoString :=
  match w.httpGet (npmURL packageName) with
  | .error err =>
    ([.httpGet (npmURL packageName),
      .log (lit "Error fetching NPM package details for " ++ packageName ++ lit ": " ++ err)],
     version)
  | .ok npmResp =>
    if npmResp.statusCode ≠ 200 then
      ([.httpGet (npmURL packageName),
        .log (lit "npm registry returned non-200 status code for " ++ packageName ++ lit ": "
          ++ fmtInt npmResp.statusCode ++ lit " " ++ npmResp.status)],
       version)
    else
      match npmResp.body.json with
      | .error err =>
        ([.httpGet (npmURL packageName),
          .log (lit "Error decoding npm JSON response for " ++ packageName ++ lit ": " ++ err)],
         version)
      | .ok npmData =>
        match npmData.lookup (lit "versions") with
        | some versions =>
          let dump : Event :=
            match w.marshalIndent npmData with
            | .error err => .log (lit "Error formatting npm JSON: " ++ err)
            | .ok npmJSON => .log (lit "NPM Package Data:\n" ++ npmJSON)
          match versions with
          | .obj versionsMap =>
            let latestVersion := selectLatest (versionsMap.map Prod.fst)
            if latestVersion = [] then
              ([.httpGet (npmURL packageName), dump,
                .log (lit "Could not determine version for " ++ packageName)],
               latestVersion)
            else
              ([.httpGet (npmURL packageName), dump,
                .log (lit "Package Name: " ++ packageName),
                .log (lit "Package Version: " ++ latestVersion)],
               latestVersion)
          | _ =>
            ([.httpGet (npmURL packageName), dump,
              .log (lit "Could not determine version for " ++ packageName)],
             version)
        | none =>
          ([.httpGet (npmURL packageName),
            .log (lit "Could not determine version for " ++ packageName)],
           version)

/-- Source `checkCVEs` (cve_scanner.go:67-107). -/
def checkCVEs (w : World) (packageName : GoString) : List Event :=
  let r := checkNpmPackage w packageName []
  let version := r.2
  if version = [] then
    r.1 ++ [.log (lit "Skipping CVE check for " ++ packageName ++ lit ": version not found.")]
  else
    let url := nvdURL packageName version
    let asked : List Event :=
      r.1 ++ [.log (lit "Querying NVD API for " ++ packageName), .log (lit "URL: " ++ url),
        .httpGet url]
    match w.httpGet url with
    | .error err =>
      asked ++ [.log (lit "Error querying NVD API for " ++ packageName ++ lit ": " ++ err)]
    | .ok resp =>
      match resp.body.bytes with
      | .error err =>
        asked ++ [.log (lit "Error reading NVD API response for " ++ packageName ++ lit ": "
          ++ err)]
      | .ok body =>
        if body.length > 0 then
          asked ++ [.stdout (lit "Found potential CVEs for " ++ packageName ++ lit ":\n"),
            .stdout (body ++ lit "\n")]
        else
          asked ++ [.stdout (lit "No CVEs found for " ++ packageName ++ lit "\n")]

/-- Source `getNodeVersion` (cve_scanner.go:180-188): the two results, the
error being `none` for nil. -/
def getNodeVersion (w : World) : GoString × Option GoString :=
  match w.nodeOutput with
  | .error err => ([], some err)
  | .ok out => (w.trimSpace out, none)

/-- The keys of a dependency map. -/
def mapKeys (m : List (GoString × GoString)) : List GoString :=
  m.map Prod.fst

/-- The map assignment `m[k] = v` on a non-nil map: the entry of `k` is
replaced when there is one, added otherwise. -/
def mapSet (m : List (GoString × GoString)) (k v : GoString) : List (GoString × GoString) :=
  if k ∈ mapKeys m then m.map (fun p => if p.1 = k then (k, v) else p)
  else m ++ [(k, v)]

/-- The loop at cve_scanner.go:58-62 over the dependency names in the order
`range` visits them. -/
def scanLoop (w : World) : List GoString → List Event
  | [] => []
  | dependencyName :: rest =>
    [Event.stdout (lit "Checking for CVEs for " ++ dependencyName ++ lit "...\n"),
      Event.checkCVEsCall dependencyName]
    ++ checkCVEs w dependencyName
    ++ [Event.stdout (lit "Finished checking for CVEs for " ++ dependencyName ++ lit "\n\n")]
    ++ scanLoop w rest

/-- Lines 51-62 of `main`: open the results file, then loop over the map
(`none` is the nil map, over which `range` does nothing). -/
def mainScan (w : World) (pre : List Event) (deps : Option (List (GoString × GoString))) :
    List Event × Outcome :=
  match w.openFile with
  | .error err => (pre ++ [.log (lit "error opening file: " ++ err)], .fatal)
  | .ok _ =>
    match deps with
    | none => (pre, .returned)
    | some m => (pre ++ scanLoop w (w.rangeOrder (mapKeys m)), .returned)

/-- The log line written after the probe (cve_scanner.go:33-40): the error
when `getNodeVersion` returned one, the version otherwise. -/
def probeLog (w : World) : Event :=
  match (getNodeVersion w).2 with
  | some err => .log (lit "Error checking Node.js version: " ++ err)
  | none => .log (lit "Active Node.js Version: " ++ (getNodeVersion w).1)

/-- Source `main` (cve_scanner.go:19-64).  Assigning to an entry of the nil
map at line 49 is a runtime panic. -/
def main (w : World) : List Event × Outcome :=
  if w.args.length ≠ 2 then
    ([.stdout (lit "Usage: go run cve_scanner.go <path/to/package.json>\n")], .returned)
  else
    match w.readFile (w.args.getD 1 []) with
    | .error err => ([.log (lit "Error reading package.json: " ++ err)], .fatal)
    | .ok data =>
      let nodeVersion := (getNodeVersion w).1
      match w.unmarshal data with
      | .error err =>
        ([probeLog w, .log (lit "Error parsing package.json: " ++ err)], .fatal)
      | .ok deps =>
        if nodeVersion ≠ [] then
          match deps with
          | none => ([probeLog w], .panicked)
          | some m => mainScan w [probeLog w] (some (mapSet m (lit "node") nodeVersion))
        else
          mainScan w [probeLog w] deps

/-- The URLs requested in a trace, in order. -/
def httpRequests (t : List Event) : List GoString :=
  t.filterMap (fun e => match e with
    | .httpGet url => some url
    | _ => none)

/-- The package names `checkCVEs` was called with in a trace, in order. -/
def checkedNames (t : List Event) : List GoString :=
  t.filterMap (fun e => match e with
    | .checkCVEsCall n => some n
    | _ => none)

/-- What a trace prints on standard output, in order. -/
def stdoutOf (t : List Event) : List GoString :=
  t.filterMap (fun e => match e with
    | .stdout s => some s
    | _ => none)

/-- The names a manifest declares: the keys of its map, none for the nil map. -/
def declaredNames (deps : Option (List (GoString × GoString))) : List GoString :=
  match deps with
  | none => []
  | some m => mapKeys m

/-! ## Sample worlds

Concrete surroundings on which the functions above can be evaluated. -/

/-- ASCII white space. -/
def isAsciiSpace (b : Nat) : Bool :=
  b == 9 || b == 10 || b == 11 || b == 12 || b == 13 || b == 32

/-- What `strings.TrimSpace` does on ASCII text. -/
def asciiTrimSpace (s : GoString) : GoString :=
  ((s.dropWhile isAsciiSpace).reverse.dropWhile isAsciiSpace).reverse

/-- A manifest declaring `left-pad` only. -/
def manifestLeftPad : GoString :=
  lit "\x7b\x22dependencies\x22:\x7b\x22left-pad\x22:\x22^1.3.0\x22\x7d\x7d"

/-- A manifest declaring `left-pad` and the npm package `node`. -/
def manifestWithNode : GoString :=
  lit "\x7b\x22dependencies\x22:\x7b\x22left-pad\x22:\x22^1.3.0\x22,\x22node\x22:\x22^18.0.0\x22\x7d\x7d"

/-- A manifest declaring `left-pad` with another version range. -/
def manifestLeftPadOther : GoString :=
  lit "\x7b\x22dependencies\x22:\x7b\x22left-pad\x22:\x22~0.0.1\x22\x7d\x7d"

/-- What `json.Unmarshal` into `Dependencies` gives on the sample manifests: the
object without the key `dependencies` leaves the map nil and is no error. -/
def sampleUnmarshal (data : GoString) : Except GoString (Option (List (GoString × GoString))) :=
  if data = lit "\x7b\x7d" then .ok none
  else if data = manifestLeftPad then .ok (some [(lit "left-pad", lit "^1.3.0")])
  else if data = manifestLeftPadOther then .ok (some [(lit "left-pad", lit "~0.0.1")])
  else if data = manifestWithNode then
    .ok (some [(lit "left-pad", lit "^1.3.0"), (lit "node", lit "^18.0.0")])
  else .error (lit "unexpected end of JSON input")

/-- The files of the sample world. -/
def sampleReadFile (path : GoString) : Except GoString GoString :=
  if path = lit "package.json" then .ok manifestLeftPad
  else if path = lit "empty.json" then .ok (lit "\x7b\x7d")
  else if path = lit "other.json" then .ok manifestLeftPadOther
  else if path = lit "withnode.json" then .ok manifestWithNode
  else if path = lit "broken.json" then .ok (lit "\x7b")
  else .error (lit "open: no such file or directory")

/-- The registry document of `left-pad` in the sample world, decoded. -/
def sampleLeftPadDoc : List (GoString × JVal) :=
  [(lit "name", .str (lit "left-pad")),
   (lit "versions", .obj [(lit "2.9.0", .obj []), (lit "10.0.0", .obj [])])]

/-- The network of the sample world: the registry knows `left-pad`, the NVD
answers the query for `left-pad` 2.9.0 with the two bytes of an empty object,
every other request fails. -/
def sampleHttpGet (url : GoString) : Except GoString Response :=
  if url = npmURL (lit "left-pad") then
    .ok { statusCode := 200, status := lit "200 OK",
          body := { bytes := .ok (lit "(registry document)"), json := .ok sampleLeftPadDoc } }
  else if url = nvdURL (lit "left-pad") (lit "2.9.0") then
    .ok { statusCode := 200, status := lit "200 OK",
          body := { bytes := .ok (lit "\x7b\x7d"), json := .ok [] } }
  else .error (lit "dial tcp: no route to host")

/-- A world in which everything works: `node -v` prints a version, the
manifest declares `left-pad`, `range` visits keys in reverse. -/
def sampleWorld : World where
  args := [lit "cve_scanner", lit "package.json"]
  readFile := sampleReadFile
  nodeOutput := .ok (lit "v18.17.0\n")
  trimSpace := asciiTrimSpace
  unmarshal := sampleUnmarshal
  openFile := .ok ()
  rangeOrder := List.reverse
  httpGet := sampleHttpGet
  marshalIndent := fun _ => .ok (lit "(indented document)")

/-- The sample world without a `node` binary. -/
def noNodeWorld : World :=
  { sampleWorld with nodeOutput := .error (lit "exec: \x22node\x22: executable file not found in $PATH") }

/-- The sample world without a `node` binary, run on a manifest that lacks
the key `dependencies`. -/
def missingKeyWorld : World :=
  { noNodeWorld with args := [lit "cve_scanner", lit "empty.json"] }

/-- The sample world run on a file that holds a lone opening brace, which is
not JSON. -/
def brokenManifestWorld : World :=
  { sampleWorld with args := [lit "cve_scanner", lit "broken.json"] }

/-- The sample world run on a manifest that itself declares `node`. -/
def nodeDeclaredWorld : World :=
  { sampleWorld with args := [lit "cve_scanner", lit "withnode.json"] }

/-- The sample world run on the manifest with the other version range, another
`node` and another iteration order. -/
def otherRangeWorld : World :=
  { sampleWorld with
    args := [lit "cve_scanner", lit "other.json"]
    nodeOutput := .ok (lit "v20.11.1\n")
    rangeOrder := id }

/-! ## The order on strings -/

theorem strLt_irrefl (a : GoString) : strLt a a = false := by
  induction a with
  | nil => rfl
  | cons x xs ih => simp [strLt, ih]

theorem strLt_nil_right (a : GoString) : strLt a [] = false := by
  cases a <;> rfl

theorem strLt_trans {a b c : GoString} (hab : strLt a b = true) (hbc : strLt b c = true) :
    strLt a c = true := by
  induction a generalizing b c with
  | nil =>
    cases b with
    | nil => simp [strLt] at hab
    | cons y ys =>
      cases c with
      | nil => simp [strLt] at hbc
      | cons z zs => rfl
  | cons x xs ih =>
    cases b with
    | nil => simp [strLt] at hab
    | cons y ys =>
      cases c with
      | nil => simp [strLt] at hbc
      | cons z zs =>
        simp only [strLt, Bool.or_eq_true, Bool.and_eq_true, decide_eq_true_eq, beq_iff_eq] at *
        rcases hab with hxy | ⟨hxy, hrest⟩
        · rcases hbc with hyz | ⟨hyz, _⟩
          · exact Or.inl (lt_trans hxy hyz)
          · exact Or.inl (hyz ▸ hxy)
        · rcases hbc with hyz | ⟨hyz, hrest2⟩
          · exact Or.inl (hxy ▸ hyz)
          · exact Or.inr ⟨hxy.trans hyz, ih hrest hrest2⟩

theorem strLt_asymm {a b : GoString} (hab : strLt a b = true) : strLt b a = false := by
  cases h : strLt b a with
  | false => rfl
  | true =>
    have := strLt_trans hab h
    rw [strLt_irrefl] at this
    exact absurd this (by simp)

theorem strLt_connex {a b : GoString} (hab : strLt a b = false) (hba : strLt b a = false) :
    a = b := by
  induction a generalizing b with
  | nil =>
    cases b with
    | nil => rfl
    | cons y ys => simp [strLt] at hab
  | cons x xs ih =>
    cases b with
    | nil => simp [strLt] at hba
    | cons y ys =>
      simp only [strLt, Bool.or_eq_false_iff, Bool.and_eq_false_iff, decide_eq_false_iff_not,
        beq_eq_false_iff_ne, ne_eq, not_lt] at hab hba
      have hxy : x = y := le_antisymm hba.1 hab.1
      subst hxy
      have h1 : strLt xs ys = false := by
        rcases hab.2 with h | h
        · exact absurd rfl h
        · exact h
      have h2 : strLt ys xs = false := by
        rcases hba.2 with h | h
        · exact absurd rfl h
        · exact h
      rw [ih h1 h2]

theorem strLt_le_trans {a b c : GoString} (hba : strLt b a = false) (hcb : strLt c b = false) :
    strLt c a = false := by
  cases hca : strLt c a with
  | false => rfl
  | true =>
    cases hab : strLt a b with
    | true =>
      have := strLt_trans hca hab
      rw [hcb] at this
      exact absurd this (by simp)
    | false =>
      have hEq : a = b := strLt_connex hab hba
      subst hEq
      rw [hcb] at hca
      exact absurd hca (by simp)

theorem compareVersions_pos_iff (v1 v2 : GoString) :
    compareVersions v1 v2 > 0 ↔ strLt v2 v1 = true := by
  unfold compareVersions
  by_cases h : strLt v2 v1 = true
  · simp [h]
  · by_cases h2 : strLt v1 v2 = true <;> simp [h, h2]


/-! ## The selection loop -/

theorem selectStep_spec (a v : GoString) :
    (selectStep a v = a ∨ selectStep a v = v) ∧ strLt (selectStep a v) a = false
      ∧ strLt (selectStep a v) v = false := by
  unfold selectStep
  by_cases ha : a = []
  · subst ha
    simp [strLt_nil_right, strLt_irrefl]
  · by_cases hc : compareVersions v a > 0
    · have hlt : strLt a v = true := (compareVersions_pos_iff v a).1 hc
      simp [ha, hc, strLt_irrefl, strLt_asymm hlt]
    · have hlt : strLt a v = false := by
        cases h : strLt a v with
        | false => rfl
        | true => exact absurd ((compareVersions_pos_iff v a).2 h) hc
      simp [ha, hc, strLt_irrefl, hlt]

theorem foldl_selectStep_spec (keys : List GoString) (a : GoString) :
    (keys.foldl selectStep a = a ∨ keys.foldl selectStep a ∈ keys)
      ∧ strLt (keys.foldl selectStep a) a = false
      ∧ ∀ k ∈ keys, strLt (keys.foldl selectStep a) k = false := by
  induction keys generalizing a with
  | nil => simp [strLt_irrefl]
  | cons v rest ih =>
    obtain ⟨hmem, hge, hall⟩ := ih (selectStep a v)
    obtain ⟨hstep, hsa, hsv⟩ := selectStep_spec a v
    simp only [List.foldl_cons, List.mem_cons]
    refine ⟨?_, strLt_le_trans hsa hge, ?_⟩
    · rcases hmem with h | h
      · rcases hstep with h2 | h2
        · exact Or.inl (h.trans h2)
        · exact Or.inr (Or.inl (h.trans h2))
      · exact Or.inr (Or.inr h)
    · intro k hk
      rcases hk with hk | hk
      · subst hk
        exact strLt_le_trans hsv hge
      · exact hall k hk

theorem selectLatest_mem {keys : List GoString} (h : keys ≠ []) : selectLatest keys ∈ keys := by
  obtain ⟨hmem, _, hall⟩ := foldl_selectStep_spec keys []
  rcases hmem with h0 | h0
  · cases keys with
    | nil => exact absurd rfl h
    | cons v rest =>
      have hv := hall v (List.mem_cons_self v rest)
      have hv0 : v = [] := by
        unfold selectLatest at *
        rw [h0] at hv
        cases v with
        | nil => rfl
        | cons x xs => simp [strLt] at hv
      unfold selectLatest
      rw [h0, ← hv0]
      exact List.mem_cons_self v rest
  · exact h0

theorem selectLatest_ge (keys : List GoString) :
    ∀ k ∈ keys, strLt (selectLatest keys) k = false :=
  (foldl_selectStep_spec keys []).2.2

theorem selectLatest_unique {keys : List GoString} {r : GoString}
    (hmem : r = [] ∨ r ∈ keys) (hge : ∀ k ∈ keys, strLt r k = false) :
    r = selectLatest keys := by
  by_cases hk : keys = []
  · subst hk
    rcases hmem with h | h
    · exact h
    · simp at h
  · have hs := selectLatest_mem hk
    refine strLt_connex (hge _ hs) ?_
    rcases hmem with h | h
    · subst h
      exact strLt_nil_right _
    · exact selectLatest_ge keys r h

theorem selectLatest_perm {keys keys2 : List GoString} (h : keys.Perm keys2) :
    selectLatest keys = selectLatest keys2 := by
  apply selectLatest_unique
  · by_cases hk : keys = []
    · subst hk
      exact Or.inl rfl
    · exact Or.inr (h.mem_iff.1 (selectLatest_mem hk))
  · intro k hk
    exact selectLatest_ge keys k (h.mem_iff.2 hk)


/-! ## checkNpmPackage -/

theorem checkNpmPackage_versions {w : World} {p : GoString} {npmResp : Response}
    {npmData : List (GoString × JVal)} {versionsMap : List (GoString × JVal)} (v0 : GoString)
    (hget : w.httpGet (npmURL p) = .ok npmResp) (hstatus : npmResp.statusCode = 200)
    (hjson : npmResp.body.json = .ok npmData)
    (hver : npmData.lookup (lit "versions") = some (.obj versionsMap)) :
    (checkNpmPackage w p v0).2 = selectLatest (versionsMap.map Prod.fst) := by
  unfold checkNpmPackage
  simp only [hget, hstatus, hjson, hver]
  by_cases h : selectLatest (versionsMap.map Prod.fst) = []
  · simp [h]
  · simp [h]

theorem httpRequests_checkNpmPackage (w : World) (p v0 : GoString) :
    httpRequests (checkNpmPackage w p v0).1 = [npmURL p] := by
  unfold checkNpmPackage
  repeat' split
  all_goals simp [httpRequests]
  all_goals (split <;> simp)

theorem stdoutOf_checkNpmPackage (w : World) (p v0 : GoString) :
    stdoutOf (checkNpmPackage w p v0).1 = [] := by
  unfold checkNpmPackage
  repeat' split
  all_goals simp [stdoutOf]
  all_goals (split <;> simp)

theorem checkedNames_checkNpmPackage (w : World) (p v0 : GoString) :
    checkedNames (checkNpmPackage w p v0).1 = [] := by
  unfold checkNpmPackage
  repeat' split
  all_goals simp [checkedNames]
  all_goals (split <;> simp)


theorem checkedNames_checkCVEs (w : World) (p : GoString) : checkedNames (checkCVEs w p) = [] := by
  have h := checkedNames_checkNpmPackage w p []
  unfold checkedNames at h
  unfold checkCVEs
  simp only []
  repeat' split
  all_goals simp [checkedNames, h]

theorem npmURL_ne_nvdURL (p q v : GoString) : npmURL p ≠ nvdURL q v := by
  intro h
  have h9 := congrArg (fun l => l.take 9) h
  simp [npmURL, nvdURL, lit, utf8Bytes] at h9

/-! ## The claims -/

/-- C1: when the registry answers 200 with an object whose `versions` field is
a mapping, the version `checkNpmPackage` resolves is, for a non-empty mapping,
one of its keys and no key compares greater than it under `compareVersions`
(byte-wise lexicographic order); for the empty mapping it is the empty string;
and for the keys "2.9.0" and "10.0.0" it is "2.9.0". -/
theorem checkNpmPackage_selects_lexicographic_max (w : World) (p v0 : GoString)
    (npmResp : Response) (npmData versionsMap : List (GoString × JVal))
    (hget : w.httpGet (npmURL p) = .ok npmResp) (hstatus : npmResp.statusCode = 200)
    (hjson : npmResp.body.json = .ok npmData)
    (hver : npmData.lookup (lit "versions") = some (.obj versionsMap)) :
    (versionsMap ≠ [] →
      (checkNpmPackage w p v0).2 ∈ versionsMap.map Prod.fst ∧
      ∀ k ∈ versionsMap.map Prod.fst,
        compareVersions k (checkNpmPackage w p v0).2 ≤ 0 ∧
        strLt (checkNpmPackage w p v0).2 k = false) ∧
    (versionsMap = [] → (checkNpmPackage w p v0).2 = []) ∧
    ((∀ k, k ∈ versionsMap.map Prod.fst ↔ (k = lit "2.9.0" ∨ k = lit "10.0.0")) →
      (checkNpmPackage w p v0).2 = lit "2.9.0") := by
  rw [checkNpmPackage_versions v0 hget hstatus hjson hver]
  have hge := selectLatest_ge (versionsMap.map Prod.fst)
  have hcmp : ∀ k ∈ versionsMap.map Prod.fst,
      compareVersions k (selectLatest (versionsMap.map Prod.fst)) ≤ 0 := by
    intro k hk
    have h1 := hge k hk
    have h2 := compareVersions_pos_iff k (selectLatest (versionsMap.map Prod.fst))
    rw [h1] at h2
    by_contra hc
    exact absurd (h2.1 (by omega)) (by simp)
  refine ⟨?_, ?_, ?_⟩
  · intro hne
    have hne2 : versionsMap.map Prod.fst ≠ [] := by simpa using hne
    exact ⟨selectLatest_mem hne2, fun k hk => ⟨hcmp k hk, hge k hk⟩⟩
  · intro he
    subst he
    rfl
  · intro hkeys
    have hne : versionsMap.map Prod.fst ≠ [] := by
      intro he
      have := (hkeys (lit "2.9.0")).2 (Or.inl rfl)
      rw [he] at this
      simp at this
    rcases (hkeys _).1 (selectLatest_mem hne) with h | h
    · exact h
    · have h29 := hge (lit "2.9.0") ((hkeys _).2 (Or.inl rfl))
      rw [h] at h29
      exact absurd h29 (by decide)

/-- C1 at the sample registry, whose `left-pad` document lists 2.9.0 and 10.0.0. -/
theorem checkNpmPackage_selects_lexicographic_max_witness :
    (checkNpmPackage sampleWorld (lit "left-pad") []).2 = lit "2.9.0" :=
  (checkNpmPackage_selects_lexicographic_max sampleWorld (lit "left-pad") []
    { statusCode := 200, status := lit "200 OK",
      body := { bytes := .ok (lit "(registry document)"), json := .ok sampleLeftPadDoc } }
    sampleLeftPadDoc [(lit "2.9.0", .obj []), (lit "10.0.0", .obj [])]
    rfl rfl rfl rfl).2.2 (by intro k; simp)

/-- C7 as stated fails: `compareVersions("2.9.9", "9.0.0")` is -1, not
positive, and the loop over "9.0.0", "2.9.9" does not end with "2.9.9". -/
theorem compareVersions_2_9_9_not_above_9_0_0 :
    compareVersions (lit "2.9.9") (lit "9.0.0") = -1 ∧
    ¬ (compareVersions (lit "2.9.9") (lit "9.0.0") > 0) ∧
    selectLatest [lit "9.0.0", lit "2.9.9"] ≠ lit "2.9.9" := by
  decide

/-- C7 amended: under the string comparison "2.9.9" loses to "9.0.0":
`compareVersions("2.9.9", "9.0.0")` is negative and `compareVersions("9.0.0",
"2.9.9")` positive, so for the versions "9.0.0" and "2.9.9" the resolved version
is "9.0.0", in either iteration order. -/
theorem selectLatest_9_0_0_beats_2_9_9 :
    compareVersions (lit "2.9.9") (lit "9.0.0") < 0 ∧
    compareVersions (lit "9.0.0") (lit "2.9.9") > 0 ∧
    selectLatest [lit "9.0.0", lit "2.9.9"] = lit "9.0.0" ∧
    selectLatest [lit "2.9.9", lit "9.0.0"] = lit "9.0.0" := by
  decide

/-- C10: the selection loop of `checkNpmPackage` ends with the same version
for a list of keys and for every permutation of it, the empty string among the
keys or not. -/
theorem selectLatest_order_independent (keys keys2 : List GoString) (h : keys.Perm keys2) :
    selectLatest keys = selectLatest keys2 :=
  selectLatest_perm h

/-- C10 on three keys, one of them empty, visited in two orders. -/
theorem selectLatest_order_independent_witness :
    selectLatest [lit "2.9.0", [], lit "10.0.0"] = selectLatest [lit "10.0.0", lit "2.9.0", []] :=
  selectLatest_order_independent _ _ (by decide)


/-- C2: in `checkCVEs`, once a version was resolved and the body of the NVD
response was read, what is printed depends on the length of the body only: for a
body of length zero it is "No CVEs found for <package>", for every other body
(the two bytes of an empty JSON object among them) it is "Found potential CVEs
for <package>:" followed by the raw body. -/
theorem checkCVEs_reports_by_body_length (w : World) (p : GoString) (resp : Response)
    (body : GoString) (hversion : (checkNpmPackage w p []).2 ≠ [])
    (hget : w.httpGet (nvdURL p (checkNpmPackage w p []).2) = .ok resp)
    (hread : resp.body.bytes = .ok body) :
    (body.length = 0 →
      stdoutOf (checkCVEs w p) = [lit "No CVEs found for " ++ p ++ lit "\n"]) ∧
    (body.length ≠ 0 →
      stdoutOf (checkCVEs w p)
        = [lit "Found potential CVEs for " ++ p ++ lit ":\n", body ++ lit "\n"]) ∧
    (body = lit "\x7b\x7d" →
      stdoutOf (checkCVEs w p)
        = [lit "Found potential CVEs for " ++ p ++ lit ":\n", lit "\x7b\x7d" ++ lit "\n"]) := by
  have hnpm := stdoutOf_checkNpmPackage w p []
  unfold stdoutOf at hnpm
  have hpos : body.length ≠ 0 →
      stdoutOf (checkCVEs w p)
        = [lit "Found potential CVEs for " ++ p ++ lit ":\n", body ++ lit "\n"] := by
    intro hlen
    have hlen2 : body.length > 0 := Nat.pos_of_ne_zero hlen
    unfold checkCVEs
    simp only [hversion, hget, hread, hlen2, if_true, if_false]
    simp [stdoutOf, hnpm]
  refine ⟨?_, hpos, ?_⟩
  · intro hlen
    have hlen2 : ¬ body.length > 0 := by omega
    unfold checkCVEs
    simp only [hversion, hget, hread, hlen2, if_true, if_false]
    simp [stdoutOf, hnpm]
  · intro hb
    have := hpos (by rw [hb]; decide)
    rw [hb] at this
    exact this

/-- C2 at the sample world, whose NVD answers `left-pad` with the two bytes of
an empty object. -/
theorem checkCVEs_reports_by_body_length_witness :
    stdoutOf (checkCVEs sampleWorld (lit "left-pad"))
      = [lit "Found potential CVEs for " ++ lit "left-pad" ++ lit ":\n",
         lit "\x7b\x7d" ++ lit "\n"] :=
  (checkCVEs_reports_by_body_length sampleWorld (lit "left-pad")
    { statusCode := 200, status := lit "200 OK",
      body := { bytes := .ok (lit "\x7b\x7d"), json := .ok [] } }
    (lit "\x7b\x7d") (by decide) rfl rfl).2.2 rfl

/-- C3: when the registry request fails, answers with a status other than 200,
answers with a body that does not decode, with an object without `versions`, or
with a `versions` that is not a mapping, `checkNpmPackage` leaves the version as
it was (the empty string in `checkCVEs`), and `checkCVEs` logs the skip and
returns having requested the registry URL only: no NVD URL is requested. -/
theorem checkCVEs_skips_when_version_unresolved (w : World) (p : GoString)
    (h : (∃ err, w.httpGet (npmURL p) = .error err) ∨
      ∃ resp, w.httpGet (npmURL p) = .ok resp ∧
        (resp.statusCode ≠ 200 ∨ (∃ err, resp.body.json = .error err) ∨
          ∃ npmData, resp.body.json = .ok npmData ∧
            (npmData.lookup (lit "versions") = none ∨
              ∃ v, npmData.lookup (lit "versions") = some v ∧ ∀ m, v ≠ JVal.obj m))) :
    (∀ v0, (checkNpmPackage w p v0).2 = v0) ∧
    (checkNpmPackage w p []).2 = [] ∧
    checkCVEs w p = (checkNpmPackage w p []).1
      ++ [Event.log (lit "Skipping CVE check for " ++ p ++ lit ": version not found.")] ∧
    httpRequests (checkCVEs w p) = [npmURL p] ∧
    ∀ v, Event.httpGet (nvdURL p v) ∉ checkCVEs w p := by
  have hkeep : ∀ v0, (checkNpmPackage w p v0).2 = v0 := by
    intro v0
    unfold checkNpmPackage
    rcases h with ⟨err, he⟩ | ⟨resp, hr, hcase⟩
    · simp [he]
    · simp only [hr]
      rcases hcase with hs | ⟨err, hj⟩ | ⟨npmData, hj, hv⟩
      · simp [hs]
      · by_cases hs : resp.statusCode = 200 <;> simp [hs, hj]
      · by_cases hs : resp.statusCode = 200
        · rcases hv with hnone | ⟨v, hsome, hnot⟩
          · simp [hs, hj, hnone]
          · simp only [hs, hj, hsome]
            cases v with
            | obj m => exact absurd rfl (hnot m)
            | _ => simp
        · simp [hs]
  have hskip : checkCVEs w p = (checkNpmPackage w p []).1
      ++ [Event.log (lit "Skipping CVE check for " ++ p ++ lit ": version not found.")] := by
    unfold checkCVEs
    simp [hkeep []]
  have hreq : httpRequests (checkCVEs w p) = [npmURL p] := by
    have h1 := httpRequests_checkNpmPackage w p []
    rw [hskip]
    unfold httpRequests at *
    simp [h1]
  refine ⟨hkeep, hkeep [], hskip, hreq, ?_⟩
  intro v hmem
  have : nvdURL p v ∈ httpRequests (checkCVEs w p) := by
    unfold httpRequests
    rw [List.mem_filterMap]
    exact ⟨_, hmem, rfl⟩
  rw [hreq] at this
  simp at this
  exact npmURL_ne_nvdURL p p v this.symm

/-- C3 at the sample world, whose registry does not answer for `node`. -/
theorem checkCVEs_skips_when_version_unresolved_witness :
    httpRequests (checkCVEs sampleWorld (lit "node")) = [npmURL (lit "node")] :=
  (checkCVEs_skips_when_version_unresolved sampleWorld (lit "node")
    (Or.inl ⟨lit "dial tcp: no route to host", rfl⟩)).2.2.2.1


/-! ## The loop of main -/

theorem scanLoop_eq_flatMap (w : World) (ks : List GoString) :
    scanLoop w ks = ks.flatMap (fun n =>
      [Event.stdout (lit "Checking for CVEs for " ++ n ++ lit "...\n"), Event.checkCVEsCall n]
      ++ checkCVEs w n
      ++ [Event.stdout (lit "Finished checking for CVEs for " ++ n ++ lit "\n\n")]) := by
  induction ks with
  | nil => rfl
  | cons k rest ih => simp [scanLoop, ih]

theorem checkedNames_append (a b : List Event) :
    checkedNames (a ++ b) = checkedNames a ++ checkedNames b := by
  simp [checkedNames]

theorem httpRequests_append (a b : List Event) :
    httpRequests (a ++ b) = httpRequests a ++ httpRequests b := by
  simp [httpRequests]

theorem checkedNames_scanLoop (w : World) (ks : List GoString) :
    checkedNames (scanLoop w ks) = ks := by
  induction ks with
  | nil => rfl
  | cons k rest ih =>
    simp only [scanLoop, checkedNames_append, ih, checkedNames_checkCVEs]
    simp [checkedNames]

theorem httpRequests_checkCVEs (w : World) (p : GoString) :
    httpRequests (checkCVEs w p) =
      if (checkNpmPackage w p []).2 = [] then [npmURL p]
      else [npmURL p, nvdURL p (checkNpmPackage w p []).2] := by
  have h := httpRequests_checkNpmPackage w p []
  unfold httpRequests at h
  unfold checkCVEs
  simp only []
  repeat' split
  all_goals simp [httpRequests, h]

theorem httpRequests_scanLoop (w : World) (ks : List GoString) :
    httpRequests (scanLoop w ks) = ks.flatMap (fun p => httpRequests (checkCVEs w p)) := by
  induction ks with
  | nil => rfl
  | cons k rest ih =>
    simp only [scanLoop, httpRequests_append, ih, List.flatMap_cons]
    simp [httpRequests]

theorem mapKeys_mapSet_of_mem {m : List (GoString × GoString)} {k : GoString} (v : GoString)
    (h : k ∈ mapKeys m) : mapKeys (mapSet m k v) = mapKeys m := by
  unfold mapSet
  rw [if_pos h]
  unfold mapKeys
  rw [List.map_map]
  apply List.map_congr_left
  intro q _
  by_cases hq : q.1 = k
  · simp [hq]
  · simp [hq]

theorem mapKeys_mapSet_of_not_mem {m : List (GoString × GoString)} {k : GoString} (v : GoString)
    (h : k ∉ mapKeys m) : mapKeys (mapSet m k v) = mapKeys m ++ [k] := by
  unfold mapSet
  rw [if_neg h]
  simp [mapKeys]

theorem mainScan_of_open (w : World) (pre : List Event)
    (deps : Option (List (GoString × GoString))) (hopen : w.openFile = .ok ())
    (hperm : ∀ ks, (w.rangeOrder ks).Perm ks) :
    mainScan w pre deps = (pre ++ scanLoop w (w.rangeOrder (declaredNames deps)), .returned) := by
  unfold mainScan
  rw [hopen]
  cases deps with
  | none =>
    have h0 : w.rangeOrder [] = [] := List.Perm.eq_nil (hperm [])
    simp [declaredNames, h0, scanLoop]
  | some m => rfl

theorem main_of_parsed (w : World) (data : GoString)
    (deps : Option (List (GoString × GoString))) (hargs : w.args.length = 2)
    (hread : w.readFile (w.args.getD 1 []) = .ok data) (hunm : w.unmarshal data = .ok deps) :
    main w =
      if (getNodeVersion w).1 ≠ [] then
        match deps with
        | none => ([probeLog w], .panicked)
        | some m => mainScan w [probeLog w] (some (mapSet m (lit "node") (getNodeVersion w).1))
      else
        mainScan w [probeLog w] deps := by
  unfold main
  simp only [hargs, hread, hunm, ne_eq, not_true_eq_false, if_false]
  cases deps <;> rfl

theorem checkedNames_probeLog (w : World) : checkedNames [probeLog w] = [] := by
  unfold probeLog
  split <;> rfl

theorem httpRequests_probeLog (w : World) : httpRequests [probeLog w] = [] := by
  unfold probeLog
  split <;> rfl

theorem probeLog_ne_parse_error (w : World) (err : GoString) :
    probeLog w ≠ Event.log (lit "Error parsing package.json: " ++ err) := by
  unfold probeLog
  split
  · intro h
    have h7 := congrArg (fun l => l.take 7) (Event.log.inj h)
    simp [lit, utf8Bytes] at h7
  · intro h
    have h7 := congrArg (fun l => l.take 1) (Event.log.inj h)
    simp [lit, utf8Bytes] at h7

/-- With a parsed non-nil map and the results file open, `main` returns after
the loop went over the keys of the map, `node` set in it when probed. -/
theorem main_of_some (w : World) (data : GoString) (m : List (GoString × GoString))
    (hargs : w.args.length = 2) (hread : w.readFile (w.args.getD 1 []) = .ok data)
    (hunm : w.unmarshal data = .ok (some m)) (hopen : w.openFile = .ok ())
    (hperm : ∀ ks, (w.rangeOrder ks).Perm ks) :
    main w = ([probeLog w] ++ scanLoop w (w.rangeOrder (mapKeys
      (if (getNodeVersion w).1 ≠ [] then mapSet m (lit "node") (getNodeVersion w).1 else m))),
      Outcome.returned) := by
  rw [main_of_parsed w data (some m) hargs hread hunm]
  by_cases hnv : (getNodeVersion w).1 = []
  · simp only [hnv, ne_eq, not_true_eq_false, if_false]
    rw [mainScan_of_open w _ _ hopen hperm]
    rfl
  · simp only [hnv, ne_eq, not_false_eq_true, if_true]
    rw [mainScan_of_open w _ _ hopen hperm]
    rfl

theorem checkedNames_main_of_some (w : World) (data : GoString) (m : List (GoString × GoString))
    (hargs : w.args.length = 2) (hread : w.readFile (w.args.getD 1 []) = .ok data)
    (hunm : w.unmarshal data = .ok (some m)) (hopen : w.openFile = .ok ())
    (hperm : ∀ ks, (w.rangeOrder ks).Perm ks) :
    checkedNames (main w).1 = w.rangeOrder (mapKeys
      (if (getNodeVersion w).1 ≠ [] then mapSet m (lit "node") (getNodeVersion w).1 else m)) := by
  rw [main_of_some w data m hargs hread hunm hopen hperm]
  simp only [checkedNames_append, checkedNames_probeLog, checkedNames_scanLoop, List.nil_append]


/-- C4 as stated fails: on a manifest that is a JSON object without the key
`dependencies` (decoding succeeds and leaves the map nil), with the probe
failing, `main` logs no parse error and returns normally. -/
theorem main_missing_dependencies_key_returns :
    missingKeyWorld.readFile (lit "empty.json") = .ok (lit "\x7b\x7d") ∧
    missingKeyWorld.unmarshal (lit "\x7b\x7d") = .ok none ∧
    (main missingKeyWorld).2 = Outcome.returned ∧
    (main missingKeyWorld).2 ≠ Outcome.fatal ∧
    (main missingKeyWorld).1 = [Event.log (lit "Error checking Node.js version: "
      ++ lit "exec: \x22node\x22: executable file not found in $PATH")] := by
  refine ⟨rfl, rfl, ?_, ?_, ?_⟩ <;> decide

/-- C4 amended: for every manifest content that `json.Unmarshal` rejects, and
for every outcome of the probe, `main` fails with the manifest parse error as
its last log line, before any HTTP request and before any dependency is
checked.  For a manifest that is a JSON object lacking the key `dependencies`
decoding succeeds and no parse error is logged; when the probe yields no
version, no HTTP request is made and no dependency is checked, and `main`
returns normally once the results file opens. -/
theorem main_manifest_failures (w : World) (data : GoString) (hargs : w.args.length = 2)
    (hread : w.readFile (w.args.getD 1 []) = .ok data) :
    (∀ err, w.unmarshal data = .error err →
      (main w).2 = Outcome.fatal ∧
      (main w).1.getLast? = some (Event.log (lit "Error parsing package.json: " ++ err)) ∧
      httpRequests (main w).1 = [] ∧ checkedNames (main w).1 = []) ∧
    (w.unmarshal data = .ok none → (getNodeVersion w).1 = [] →
      httpRequests (main w).1 = [] ∧ checkedNames (main w).1 = [] ∧
      (∀ err, Event.log (lit "Error parsing package.json: " ++ err) ∉ (main w).1) ∧
      (w.openFile = .ok () → (main w).2 = Outcome.returned)) := by
  constructor
  · intro err herr
    have hmain : main w
        = ([probeLog w, Event.log (lit "Error parsing package.json: " ++ err)],
           Outcome.fatal) := by
      unfold main
      simp only [hargs, hread, herr, ne_eq, not_true_eq_false, if_false]
    rw [hmain]
    refine ⟨rfl, rfl, ?_, ?_⟩
    · have h := httpRequests_probeLog w
      unfold httpRequests at *
      simp only [List.filterMap_cons, List.filterMap_nil] at *
      revert h
      cases probeLog w <;> simp
    · have h := checkedNames_probeLog w
      unfold checkedNames at *
      simp only [List.filterMap_cons, List.filterMap_nil] at *
      revert h
      cases probeLog w <;> simp
  · intro hunm hnv
    have hmain := main_of_parsed w data none hargs hread hunm
    simp only [hnv, ne_eq, not_true_eq_false, if_false] at hmain
    rw [hmain]
    unfold mainScan
    cases hopen : w.openFile with
    | error e =>
      refine ⟨?_, ?_, ?_, ?_⟩
      · simp only [httpRequests_append, httpRequests_probeLog]
        rfl
      · simp only [checkedNames_append, checkedNames_probeLog]
        rfl
      · intro err hmem
        simp only [List.mem_append, List.mem_singleton] at hmem
        rcases hmem with h | h
        · exact probeLog_ne_parse_error w err h.symm
        · have h1 := congrArg (fun l => l.take 1) (Event.log.inj h)
          simp [lit, utf8Bytes] at h1
      · intro h
        cases h
    | ok u =>
      refine ⟨httpRequests_probeLog w, checkedNames_probeLog w, ?_, fun _ => rfl⟩
      intro err hmem
      simp only [List.mem_singleton] at hmem
      exact probeLog_ne_parse_error w err hmem.symm

/-- C4 amended, at a file that is not JSON and at the manifest without the
key `dependencies`. -/
theorem main_manifest_failures_witness :
    (main brokenManifestWorld).2 = Outcome.fatal ∧
    httpRequests (main brokenManifestWorld).1 = [] ∧
    httpRequests (main missingKeyWorld).1 = [] :=
  ⟨((main_manifest_failures brokenManifestWorld (lit "\x7b") rfl rfl).1 _ rfl).1,
   ((main_manifest_failures brokenManifestWorld (lit "\x7b") rfl rfl).1 _ rfl).2.2.1,
   ((main_manifest_failures missingKeyWorld (lit "\x7b\x7d") rfl rfl).2 rfl rfl).1⟩

/-- C5 as stated fails: the probe succeeds and the manifest declares two
dependencies, one of them named `node`; `checkCVEs` runs for two names, not
three. -/
theorem main_node_declared_checks_two :
    (getNodeVersion nodeDeclaredWorld).2 = none ∧
    nodeDeclaredWorld.unmarshal manifestWithNode
      = .ok (some [(lit "left-pad", lit "^1.3.0"), (lit "node", lit "^18.0.0")]) ∧
    (main nodeDeclaredWorld).2 = Outcome.returned ∧
    checkedNames (main nodeDeclaredWorld).1 = [lit "node", lit "left-pad"] ∧
    (checkedNames (main nodeDeclaredWorld).1).length ≠ 2 + 1 := by
  refine ⟨rfl, rfl, ?_, ?_, ?_⟩ <;> decide

/-- C5 amended: for every manifest whose `dependencies` mapping is present and
every successful probe, once the results file opens `main` returns normally and
runs `checkCVEs` once for each key of the mapping it iterates: when the probed
version is not empty and `node` is not declared, the N declared names plus
`node`, N+1 names; when `node` is declared already (its value is overwritten) or
the probed version is empty (no entry is added), the N declared names. -/
theorem main_checks_declared_and_node (w : World) (data out : GoString)
    (m : List (GoString × GoString)) (hargs : w.args.length = 2)
    (hread : w.readFile (w.args.getD 1 []) = .ok data) (hprobe : w.nodeOutput = .ok out)
    (hunm : w.unmarshal data = .ok (some m)) (hopen : w.openFile = .ok ())
    (hperm : ∀ ks, (w.rangeOrder ks).Perm ks) :
    (main w).2 = Outcome.returned ∧
    (w.trimSpace out ≠ [] → lit "node" ∉ mapKeys m →
      (checkedNames (main w).1).Perm (mapKeys m ++ [lit "node"]) ∧
      (checkedNames (main w).1).length = m.length + 1) ∧
    (w.trimSpace out ≠ [] → lit "node" ∈ mapKeys m →
      (checkedNames (main w).1).Perm (mapKeys m) ∧
      (checkedNames (main w).1).length = m.length) ∧
    (w.trimSpace out = [] →
      (checkedNames (main w).1).Perm (mapKeys m) ∧
      (checkedNames (main w).1).length = m.length) ∧
    ((mapKeys m).Nodup → (checkedNames (main w).1).Nodup) := by
  have hnv : (getNodeVersion w).1 = w.trimSpace out := by
    unfold getNodeVersion
    rw [hprobe]
  have hnames := checkedNames_main_of_some w data m hargs hread hunm hopen hperm
  have hlen : (mapKeys m).length = m.length := by simp [mapKeys]
  rw [hnv] at hnames
  refine ⟨?_, ?_, ?_, ?_, ?_⟩
  · rw [main_of_some w data m hargs hread hunm hopen hperm]
  · intro ht hnot
    rw [hnames, if_pos ht, mapKeys_mapSet_of_not_mem _ hnot]
    refine ⟨hperm _, ?_⟩
    rw [(hperm _).length_eq]
    simp [hlen]
  · intro ht hin
    rw [hnames, if_pos ht, mapKeys_mapSet_of_mem _ hin]
    exact ⟨hperm _, by rw [(hperm _).length_eq, hlen]⟩
  · intro ht
    rw [hnames, if_neg (not_not.2 ht)]
    exact ⟨hperm _, by rw [(hperm _).length_eq, hlen]⟩
  · intro hnd
    rw [hnames]
    rw [(hperm _).nodup_iff]
    by_cases ht : w.trimSpace out = []
    · rw [if_neg (not_not.2 ht)]
      exact hnd
    · rw [if_pos ht]
      by_cases hin : lit "node" ∈ mapKeys m
      · rw [mapKeys_mapSet_of_mem _ hin]
        exact hnd
      · rw [mapKeys_mapSet_of_not_mem _ hin]
        exact List.Nodup.append hnd (List.nodup_singleton _) (by simpa using hin)

/-- C5 amended, at the sample world: one declared name, two names checked. -/
theorem main_checks_declared_and_node_witness :
    (checkedNames (main sampleWorld).1).length = 1 + 1 :=
  ((main_checks_declared_and_node sampleWorld manifestLeftPad (lit "v18.17.0\n")
    [(lit "left-pad", lit "^1.3.0")] rfl rfl rfl rfl rfl
    (fun ks => List.reverse_perm ks)).2.1 (by decide) (by decide)).2

/-- C6: when `getNodeVersion` returns an error, a parsed manifest and an open
results file given, `main` does not abort: it returns normally, the loop ranges
over the keys of the declared mapping with nothing added, and `checkCVEs` runs
for exactly the N declared names; `node` is checked only if declared. -/
theorem main_probe_failure_scans_declared (w : World) (data err : GoString)
    (deps : Option (List (GoString × GoString))) (hargs : w.args.length = 2)
    (hread : w.readFile (w.args.getD 1 []) = .ok data) (hprobe : w.nodeOutput = .error err)
    (hunm : w.unmarshal data = .ok deps) (hopen : w.openFile = .ok ())
    (hperm : ∀ ks, (w.rangeOrder ks).Perm ks) :
    (main w).2 = Outcome.returned ∧
    (main w).1 = [Event.log (lit "Error checking Node.js version: " ++ err)]
      ++ scanLoop w (w.rangeOrder (declaredNames deps)) ∧
    (checkedNames (main w).1).Perm (declaredNames deps) ∧
    (checkedNames (main w).1).length = (declaredNames deps).length ∧
    (lit "node" ∉ declaredNames deps → lit "node" ∉ checkedNames (main w).1) := by
  have hnv : (getNodeVersion w).1 = [] := by
    unfold getNodeVersion
    rw [hprobe]
  have hlog : probeLog w = Event.log (lit "Error checking Node.js version: " ++ err) := by
    unfold probeLog getNodeVersion
    rw [hprobe]
  have hmain := main_of_parsed w data deps hargs hread hunm
  simp only [hnv, ne_eq, not_true_eq_false, if_false] at hmain
  rw [mainScan_of_open w _ _ hopen hperm, hlog] at hmain
  have hnames : checkedNames (main w).1 = w.rangeOrder (declaredNames deps) := by
    rw [hmain]
    simp only [checkedNames_append, checkedNames_scanLoop]
    rfl
  rw [hnames]
  refine ⟨by rw [hmain], by rw [hmain], hperm _, (hperm _).length_eq, ?_⟩
  intro hnot hin
  exact hnot ((hperm _).mem_iff.1 hin)

/-- C6 at the sample world without a `node` binary: one declared name, one
name checked. -/
theorem main_probe_failure_scans_declared_witness :
    checkedNames (main noNodeWorld).1 = [lit "left-pad"] ∧
    (main noNodeWorld).2 = Outcome.returned :=
  ⟨by
    have h := (main_probe_failure_scans_declared noNodeWorld manifestLeftPad
      (lit "exec: \x22node\x22: executable file not found in $PATH")
      (some [(lit "left-pad", lit "^1.3.0")]) rfl rfl rfl rfl rfl
      (fun ks => List.reverse_perm ks)).2.2.1
    exact List.perm_singleton.1 h,
   (main_probe_failure_scans_declared noNodeWorld manifestLeftPad
      (lit "exec: \x22node\x22: executable file not found in $PATH")
      (some [(lit "left-pad", lit "^1.3.0")]) rfl rfl rfl rfl rfl
      (fun ks => List.reverse_perm ks)).1⟩


/-! ## What the scan depends on -/

theorem mem_scanned_keys (m : List (GoString × GoString)) (k nv n : GoString) :
    n ∈ mapKeys (if nv ≠ [] then mapSet m k nv else m) ↔ (n ∈ mapKeys m ∨ (n = k ∧ nv ≠ [])) := by
  by_cases hnv : nv = []
  · simp [hnv]
  · rw [if_pos hnv]
    by_cases hk : k ∈ mapKeys m
    · rw [mapKeys_mapSet_of_mem _ hk]
      constructor
      · exact fun h => Or.inl h
      · rintro (h | ⟨h, _⟩)
        · exact h
        · exact h ▸ hk
    · rw [mapKeys_mapSet_of_not_mem _ hk]
      simp [hnv]

theorem nodup_scanned_keys (m : List (GoString × GoString)) (k nv : GoString)
    (h : (mapKeys m).Nodup) : (mapKeys (if nv ≠ [] then mapSet m k nv else m)).Nodup := by
  by_cases hnv : nv = []
  · simpa [hnv] using h
  · rw [if_pos hnv]
    by_cases hk : k ∈ mapKeys m
    · rw [mapKeys_mapSet_of_mem _ hk]
      exact h
    · rw [mapKeys_mapSet_of_not_mem _ hk]
      exact List.Nodup.append h (List.nodup_singleton _) (by simpa using hk)

theorem checkNpmPackage_congr {w1 w2 : World} (hhttp : w1.httpGet = w2.httpGet)
    (hmarshal : w1.marshalIndent = w2.marshalIndent) (p v0 : GoString) :
    checkNpmPackage w1 p v0 = checkNpmPackage w2 p v0 := by
  simp only [checkNpmPackage, hhttp, hmarshal]

theorem checkCVEs_congr {w1 w2 : World} (hhttp : w1.httpGet = w2.httpGet)
    (hmarshal : w1.marshalIndent = w2.marshalIndent) (p : GoString) :
    checkCVEs w1 p = checkCVEs w2 p := by
  simp only [checkCVEs, checkNpmPackage_congr hhttp hmarshal, hhttp]

theorem httpRequests_main_of_some (w : World) (data : GoString) (m : List (GoString × GoString))
    (hargs : w.args.length = 2) (hread : w.readFile (w.args.getD 1 []) = .ok data)
    (hunm : w.unmarshal data = .ok (some m)) (hopen : w.openFile = .ok ())
    (hperm : ∀ ks, (w.rangeOrder ks).Perm ks) :
    httpRequests (main w).1 = (checkedNames (main w).1).flatMap (fun p =>
      if (checkNpmPackage w p []).2 = [] then [npmURL p]
      else [npmURL p, nvdURL p (checkNpmPackage w p []).2]) := by
  rw [checkedNames_main_of_some w data m hargs hread hunm hopen hperm]
  rw [main_of_some w data m hargs hread hunm hopen hperm]
  simp only [httpRequests_append, httpRequests_probeLog, httpRequests_scanLoop, List.nil_append,
    httpRequests_checkCVEs]

theorem main_of_some_closed (w : World) (data err : GoString) (m : List (GoString × GoString))
    (hargs : w.args.length = 2) (hread : w.readFile (w.args.getD 1 []) = .ok data)
    (hunm : w.unmarshal data = .ok (some m)) (hopen : w.openFile = .error err) :
    main w = ([probeLog w, Event.log (lit "error opening file: " ++ err)], Outcome.fatal) := by
  rw [main_of_parsed w data (some m) hargs hread hunm]
  by_cases hnv : (getNodeVersion w).1 = []
  · simp only [hnv, ne_eq, not_true_eq_false, if_false]
    unfold mainScan
    rw [hopen]
    rfl
  · simp only [hnv, ne_eq, not_false_eq_true, if_true]
    unfold mainScan
    rw [hopen]
    rfl

theorem trace_main_of_some_closed (w : World) (data err : GoString)
    (m : List (GoString × GoString))
    (hargs : w.args.length = 2) (hread : w.readFile (w.args.getD 1 []) = .ok data)
    (hunm : w.unmarshal data = .ok (some m)) (hopen : w.openFile = .error err) :
    checkedNames (main w).1 = [] ∧ httpRequests (main w).1 = [] ∧ (main w).2 = Outcome.fatal := by
  rw [main_of_some_closed w data err m hargs hread hunm hopen]
  have h1 := checkedNames_probeLog w
  have h2 := httpRequests_probeLog w
  refine ⟨?_, ?_, rfl⟩
  · show checkedNames ([probeLog w] ++ [Event.log (lit "error opening file: " ++ err)]) = []
    rw [checkedNames_append, h1]
    rfl
  · show httpRequests ([probeLog w] ++ [Event.log (lit "error opening file: " ++ err)]) = []
    rw [httpRequests_append, h2]
    rfl

/-- C8: two runs on manifests with the same declared names but any values,
with any two probed versions (both empty or both not), any two iteration
orders, and the same results file, registry and NVD responses, resolve the same
version for every package, end the same way, check the same names, and request
the same URLs: per checked name the registry URL and, when a version was
resolved, the NVD URL made of the endpoint, "?keywordSearch=", the name, "+" and
the resolved version. -/
theorem main_ignores_declared_ranges (w1 w2 : World) (data1 data2 : GoString)
    (m1 m2 : List (GoString × GoString))
    (hargs1 : w1.args.length = 2) (hread1 : w1.readFile (w1.args.getD 1 []) = .ok data1)
    (hunm1 : w1.unmarshal data1 = .ok (some m1))
    (hargs2 : w2.args.length = 2) (hread2 : w2.readFile (w2.args.getD 1 []) = .ok data2)
    (hunm2 : w2.unmarshal data2 = .ok (some m2))
    (hperm1 : ∀ ks, (w1.rangeOrder ks).Perm ks) (hperm2 : ∀ ks, (w2.rangeOrder ks).Perm ks)
    (hnodup1 : (mapKeys m1).Nodup) (hnodup2 : (mapKeys m2).Nodup)
    (hnames : ∀ n, n ∈ mapKeys m1 ↔ n ∈ mapKeys m2)
    (hnode : (getNodeVersion w1).1 = [] ↔ (getNodeVersion w2).1 = [])
    (hopen : w1.openFile = w2.openFile)
    (hhttp : w1.httpGet = w2.httpGet) (hmarshal : w1.marshalIndent = w2.marshalIndent) :
    (∀ p v0, checkNpmPackage w1 p v0 = checkNpmPackage w2 p v0) ∧
    (∀ p, checkCVEs w1 p = checkCVEs w2 p) ∧
    (main w1).2 = (main w2).2 ∧
    (checkedNames (main w1).1).Perm (checkedNames (main w2).1) ∧
    (httpRequests (main w1).1).Perm (httpRequests (main w2).1) ∧
    httpRequests (main w1).1 = (checkedNames (main w1).1).flatMap (fun p =>
      if (checkNpmPackage w1 p []).2 = [] then [npmURL p]
      else [npmURL p, nvdURL p (checkNpmPackage w1 p []).2]) ∧
    httpRequests (main w2).1 = (checkedNames (main w2).1).flatMap (fun p =>
      if (checkNpmPackage w2 p []).2 = [] then [npmURL p]
      else [npmURL p, nvdURL p (checkNpmPackage w2 p []).2]) := by
  refine ⟨checkNpmPackage_congr hhttp hmarshal, checkCVEs_congr hhttp hmarshal, ?_⟩
  cases hopen1 : w1.openFile with
  | error err =>
    have hopen2 : w2.openFile = .error err := by rw [← hopen, hopen1]
    obtain ⟨hc1, hr1, ho1⟩ := trace_main_of_some_closed w1 data1 err m1 hargs1 hread1 hunm1 hopen1
    obtain ⟨hc2, hr2, ho2⟩ := trace_main_of_some_closed w2 data2 err m2 hargs2 hread2 hunm2 hopen2
    rw [hc1, hc2, hr1, hr2, ho1, ho2]
    exact ⟨rfl, List.Perm.refl _, List.Perm.refl _, rfl, rfl⟩
  | ok u =>
    have hopen2 : w2.openFile = .ok () := by rw [← hopen, hopen1]
    have hopen1u : w1.openFile = .ok () := hopen1
    have hreq1 := httpRequests_main_of_some w1 data1 m1 hargs1 hread1 hunm1 hopen1u hperm1
    have hreq2 := httpRequests_main_of_some w2 data2 m2 hargs2 hread2 hunm2 hopen2 hperm2
    have hn1 := checkedNames_main_of_some w1 data1 m1 hargs1 hread1 hunm1 hopen1u hperm1
    have hn2 := checkedNames_main_of_some w2 data2 m2 hargs2 hread2 hunm2 hopen2 hperm2
    have hkeys : (mapKeys (if (getNodeVersion w1).1 ≠ []
          then mapSet m1 (lit "node") (getNodeVersion w1).1 else m1)).Perm
        (mapKeys (if (getNodeVersion w2).1 ≠ []
          then mapSet m2 (lit "node") (getNodeVersion w2).1 else m2)) := by
      rw [List.perm_ext_iff_of_nodup (nodup_scanned_keys _ _ _ hnodup1)
        (nodup_scanned_keys _ _ _ hnodup2)]
      intro n
      rw [mem_scanned_keys, mem_scanned_keys, hnames n, ne_eq, ne_eq, hnode]
    have hchecked : (checkedNames (main w1).1).Perm (checkedNames (main w2).1) := by
      rw [hn1, hn2]
      exact ((hperm1 _).trans hkeys).trans (hperm2 _).symm
    have hfun : (fun p => if (checkNpmPackage w1 p []).2 = [] then [npmURL p]
          else [npmURL p, nvdURL p (checkNpmPackage w1 p []).2])
        = (fun p => if (checkNpmPackage w2 p []).2 = [] then [npmURL p]
          else [npmURL p, nvdURL p (checkNpmPackage w2 p []).2]) := by
      funext p
      rw [checkNpmPackage_congr hhttp hmarshal]
    refine ⟨?_, hchecked, ?_, hreq1, hreq2⟩
    · rw [main_of_some w1 data1 m1 hargs1 hread1 hunm1 hopen1u hperm1,
        main_of_some w2 data2 m2 hargs2 hread2 hunm2 hopen2 hperm2]
    · rw [hreq1, hreq2, hfun]
      exact List.Perm.flatMap_right _ hchecked

/-- C8 at two sample worlds: `left-pad` declared with two version ranges, two
versions of `node`, two iteration orders. -/
theorem main_ignores_declared_ranges_witness :
    (httpRequests (main sampleWorld).1).Perm (httpRequests (main otherRangeWorld).1) :=
  (main_ignores_declared_ranges sampleWorld otherRangeWorld manifestLeftPad manifestLeftPadOther
    [(lit "left-pad", lit "^1.3.0")] [(lit "left-pad", lit "~0.0.1")]
    rfl rfl rfl rfl rfl rfl (fun ks => List.reverse_perm ks) (fun ks => List.Perm.refl ks)
    (by decide) (by decide) (fun _ => Iff.rfl) (by decide) rfl rfl rfl).2.2.2.2.1

/-- C9: whatever the registry and the NVD answer for each name (`w.httpGet` is
arbitrary), with a parsed mapping and the results file open `main` returns
normally, and its trace after the probe's log line is one block per key of the
iterated mapping, each key exactly once: the "Checking for CVEs for <name>..."
line, the events of that name's `checkCVEs`, the "Finished checking for CVEs for
<name>" line. -/
theorem main_scans_every_dependency_once (w : World) (data : GoString)
    (m : List (GoString × GoString)) (hargs : w.args.length = 2)
    (hread : w.readFile (w.args.getD 1 []) = .ok data)
    (hunm : w.unmarshal data = .ok (some m)) (hopen : w.openFile = .ok ())
    (hperm : ∀ ks, (w.rangeOrder ks).Perm ks) (hnodup : (mapKeys m).Nodup) :
    ∃ ks : List GoString, ks.Nodup ∧
      (∀ n, n ∈ ks ↔ (n ∈ mapKeys m ∨ (n = lit "node" ∧ (getNodeVersion w).1 ≠ []))) ∧
      main w = ([probeLog w] ++ ks.flatMap (fun n =>
          [Event.stdout (lit "Checking for CVEs for " ++ n ++ lit "...\n"),
            Event.checkCVEsCall n]
          ++ checkCVEs w n
          ++ [Event.stdout (lit "Finished checking for CVEs for " ++ n ++ lit "\n\n")]),
        Outcome.returned) ∧
      checkedNames (main w).1 = ks := by
  refine ⟨w.rangeOrder (mapKeys (if (getNodeVersion w).1 ≠ []
    then mapSet m (lit "node") (getNodeVersion w).1 else m)), ?_, ?_, ?_, ?_⟩
  · rw [(hperm _).nodup_iff]
    exact nodup_scanned_keys _ _ _ hnodup
  · intro n
    rw [(hperm _).mem_iff]
    exact mem_scanned_keys _ _ _ _
  · rw [main_of_some w data m hargs hread hunm hopen hperm, scanLoop_eq_flatMap]
  · exact checkedNames_main_of_some w data m hargs hread hunm hopen hperm

/-- C9 at the sample world, where the registry request for `node` fails and
the one for `left-pad` succeeds: both names are checked, no name twice, and
`main` returns. -/
theorem main_scans_every_dependency_once_witness :
    (main sampleWorld).2 = Outcome.returned ∧
    (checkedNames (main sampleWorld).1).Nodup ∧
    lit "node" ∈ checkedNames (main sampleWorld).1 ∧
    lit "left-pad" ∈ checkedNames (main sampleWorld).1 := by
  obtain ⟨ks, hnd, hmem, hmain, hnames⟩ :=
    main_scans_every_dependency_once sampleWorld manifestLeftPad
      [(lit "left-pad", lit "^1.3.0")] rfl rfl rfl rfl (fun ks => List.reverse_perm ks)
      (by decide)
  rw [hnames]
  exact ⟨by rw [hmain], hnd, (hmem _).2 (Or.inr ⟨rfl, by decide⟩),
    (hmem _).2 (Or.inl (by decide))⟩

end CveScanner
